import Mathlib

/-!
Verification of the AI-Quiz-Generator failover managers.

This file shallowly embeds the parts of the repository that carry the
failure-handling contract: `gemini_api_manager.py` (the multi-key,
multi-model failover manager), `groq_api_manager.py` (the manager wired
into quiz generation by `shared/quiz_utils.py`), the credential loader,
and the JSON-extraction block of `app.py`.

External provider calls are modelled by an oracle
`call : String → String → Except String String` mapping a
(credential, model) pair to either an error message (`.error`) or a
response text (`.ok`).  Each generation operation returns, besides its
result, the list of attempted (credential, model) pairs, embedding the
side-effect order of the Python loops.
-/

namespace QuizGen

/-- The outcome of one provider call, keyed by (credential, model):
`.ok text` models a successful `generate_content` call, `.error msg`
models a raised exception with message `msg`. -/
abbrev Call := String → String → Except String String

/-- `GeminiAPIManager.MODEL_PRIORITY` (gemini_api_manager.py lines 32-37). -/
def MODEL_PRIORITY : List String :=
  [ "gemini-2.5-flash",
    "gemini-2.0-flash",
    "gemini-2.5-flash-lite",
    "gemini-2.0-flash-lite" ]

/-- The errors `GeminiAPIManager.generate_content` can raise:
line 87 (no keys configured) and line 136 (full exhaustion). -/
inductive GenError where
  | noKeys : GenError
  | exhausted (msg : String) : GenError
  deriving Repr, DecidableEq

/-- The message of the terminal exhaustion error (line 136):
`f"Unable to fetch response. All {n} keys and models failed. Last error: {last_error}"`. -/
def exhaustMsg (n : Nat) (lastError : Option String) : String :=
  "Unable to fetch response. All " ++ toString n ++
    " keys and models failed. Last error: " ++
    (match lastError with | some e => e | none => "None")

/-- Inner loop of `generate_content` (lines 101-128): try each model in
turn for one key.  Returns the successful `(text, model)` if any model
succeeded, the list of attempted (key, model) pairs, and the value of
`last_error` after the loop. -/
def tryModels (call : Call) (key : String) :
    List String → Option String →
      Option (String × String) × List (String × String) × Option String
  | [], le => (none, [], le)
  | m :: ms, le =>
    match call key m with
    | .ok t => (some (t, m), [(key, m)], le)
    | .error e =>
      let r := tryModels call key ms (some e)
      (r.1, (key, m) :: r.2.1, r.2.2)

/-- Outer loop of `generate_content` (lines 92-136): iterate over the
keys, threading `last_error`; `n` is `len(self.api_keys)` as used in the
exhaustion message. -/
def tryKeys (call : Call) (n : Nat) :
    List String → Option String →
      Except GenError (String × String) × List (String × String)
  | [], le => (.error (.exhausted (exhaustMsg n le)), [])
  | k :: ks, le =>
    match tryModels call k MODEL_PRIORITY le with
    | (some r, tr, _) => (.ok r, tr)
    | (none, tr, le') =>
      let rest := tryKeys call n ks le'
      (rest.1, tr ++ rest.2)

/-- `GeminiAPIManager.generate_content` (lines 73-136).  The prompt only
flows into the provider call, so it is absorbed into the oracle `call`.
The result is paired with the trace of attempted (key, model) pairs. -/
def generate_content (call : Call) (keys : List String) :
    Except GenError (String × String) × List (String × String) :=
  if keys.isEmpty then (.error .noKeys, [])
  else tryKeys call keys.length keys none

/-- The nested attempt order of the two loops: all (key, model) pairs,
keys outermost, models in priority order. -/
def nestedPairs (keys models : List String) : List (String × String) :=
  keys.flatMap fun k => models.map fun m => (k, m)

/-- Flattened attempt scanner over an arbitrary pair list: the common
shape of the nested loops once the key grouping is erased. -/
def scanPairs (call : Call) :
    List (String × String) → Option String →
      Option (String × String) × List (String × String) × Option String
  | [], le => (none, [], le)
  | p :: ps, le =>
    match call p.1 p.2 with
    | .ok t => (some (t, p.2), [p], le)
    | .error e =>
      let r := scanPairs call ps (some e)
      (r.1, p :: r.2.1, r.2.2)

theorem tryModels_eq_scanPairs (call : Call) (key : String) :
    ∀ (ms : List String) (le : Option String),
      tryModels call key ms le = scanPairs call (ms.map fun m => (key, m)) le := by
  intro ms
  induction ms with
  | nil => intro le; rfl
  | cons m ms ih =>
    intro le
    simp only [tryModels, scanPairs, List.map_cons]
    cases call key m with
    | ok t => rfl
    | error e => simp [ih]

theorem scanPairs_append (call : Call) :
    ∀ (l₁ l₂ : List (String × String)) (le : Option String),
      scanPairs call (l₁ ++ l₂) le =
        match scanPairs call l₁ le with
        | (some r, tr, le') => (some r, tr, le')
        | (none, tr, le') =>
          let r₂ := scanPairs call l₂ le'
          (r₂.1, tr ++ r₂.2.1, r₂.2.2) := by
  intro l₁
  induction l₁ with
  | nil => intro l₂ le; rfl
  | cons p ps ih =>
    intro l₂ le
    rw [List.cons_append]
    cases hc : call p.1 p.2 with
    | ok t => simp [scanPairs, hc]
    | error e =>
      simp only [scanPairs, hc, List.append_eq]
      rw [ih]
      cases h : scanPairs call ps (some e) with
      | mk fst snd =>
        cases fst with
        | none => simp
        | some r => simp

theorem nestedPairs_cons (k : String) (ks models : List String) :
    nestedPairs (k :: ks) models =
      (models.map fun m => (k, m)) ++ nestedPairs ks models := by
  simp [nestedPairs]

theorem tryKeys_eq_scanPairs (call : Call) (n : Nat) :
    ∀ (keys : List String) (le : Option String),
      tryKeys call n keys le =
        match scanPairs call (nestedPairs keys MODEL_PRIORITY) le with
        | (some r, tr, _) => (.ok r, tr)
        | (none, tr, le') => (.error (.exhausted (exhaustMsg n le')), tr) := by
  intro keys
  induction keys with
  | nil => intro le; rfl
  | cons k ks ih =>
    intro le
    simp only [tryKeys]
    rw [tryModels_eq_scanPairs, nestedPairs_cons, scanPairs_append]
    cases h : scanPairs call (MODEL_PRIORITY.map fun m => (k, m)) le with
    | mk fst snd =>
      cases fst with
      | some r => rfl
      | none =>
        dsimp only
        rw [ih snd.2]
        cases h₂ : scanPairs call (nestedPairs ks MODEL_PRIORITY) snd.2 with
        | mk fst₂ snd₂ =>
          cases fst₂ with
          | some r₂ => simp [h₂]
          | none => simp [h₂]

theorem exists_error_of_isOk_false (r : Except String String)
    (h : r.isOk = false) : ∃ e, r = .error e := by
  cases r with
  | ok t => simp [Except.isOk, Except.toBool] at h
  | error e => exact ⟨e, rfl⟩

theorem scanPairs_all_fail (call : Call) :
    ∀ (l : List (String × String)) (le : Option String),
      (∀ p ∈ l, (call p.1 p.2).isOk = false) →
      (scanPairs call l le).1 = none ∧ (scanPairs call l le).2.1 = l := by
  intro l
  induction l with
  | nil => intro le _; exact ⟨rfl, rfl⟩
  | cons p ps ih =>
    intro le hfail
    obtain ⟨e, he⟩ :=
      exists_error_of_isOk_false _ (hfail p (List.mem_cons_self p ps))
    have hrec := ih (some e) (fun q hq => hfail q (List.mem_cons_of_mem p hq))
    simp [scanPairs, he, hrec.1, hrec.2]

theorem scanPairs_cons (call : Call) (p : String × String)
    (ps : List (String × String)) (le : Option String) :
    scanPairs call (p :: ps) le =
      match call p.1 p.2 with
      | .ok t => (some (t, p.2), [p], le)
      | .error e =>
        ((scanPairs call ps (some e)).1,
          p :: (scanPairs call ps (some e)).2.1,
          (scanPairs call ps (some e)).2.2) := rfl

theorem scanPairs_last_error (call : Call) :
    ∀ (l : List (String × String)) (le : Option String)
      (p : String × String) (e : String),
      (∀ q ∈ l, (call q.1 q.2).isOk = false) →
      l.getLast? = some p → call p.1 p.2 = .error e →
      (scanPairs call l le).2.2 = some e := by
  intro l
  induction l with
  | nil => intro le p e _ hlast; simp at hlast
  | cons q qs ih =>
    intro le p e hfail hlast herr
    obtain ⟨e₀, he₀⟩ :=
      exists_error_of_isOk_false _ (hfail q (List.mem_cons_self q qs))
    cases qs with
    | nil =>
      simp at hlast
      subst hlast
      rw [he₀] at herr
      cases herr
      simp [scanPairs, he₀]
    | cons q₁ qs₁ =>
      have hlast' : (q₁ :: qs₁).getLast? = some p := by
        rw [List.getLast?_cons_cons] at hlast
        exact hlast
      have hrec := ih (some e₀) p e
        (fun x hx => hfail x (List.mem_cons_of_mem q hx)) hlast' herr
      rw [scanPairs_cons, he₀]
      exact hrec

theorem scanPairs_first_success (call : Call) :
    ∀ (pre : List (String × String)) (p : String × String)
      (rest : List (String × String)) (t : String) (le : Option String),
      (∀ q ∈ pre, (call q.1 q.2).isOk = false) →
      call p.1 p.2 = .ok t →
      (scanPairs call (pre ++ p :: rest) le).1 = some (t, p.2) ∧
      (scanPairs call (pre ++ p :: rest) le).2.1 = pre ++ [p] := by
  intro pre
  induction pre with
  | nil =>
    intro p rest t le _ hp
    simp [scanPairs, hp]
  | cons q qs ih =>
    intro p rest t le hfail hp
    obtain ⟨e, he⟩ :=
      exists_error_of_isOk_false _ (hfail q (List.mem_cons_self q qs))
    have hrec := ih p rest t (some e)
      (fun x hx => hfail x (List.mem_cons_of_mem q hx)) hp
    simp [scanPairs, he, hrec.1, hrec.2]

theorem scanPairs_trace_of (call : Call) :
    ∀ (l : List (String × String)) (le : Option String),
      (scanPairs call l le).2.1 <+: l := by
  intro l
  induction l with
  | nil => intro le; exact List.prefix_refl _
  | cons p ps ih =>
    intro le
    cases hc : call p.1 p.2 with
    | ok t =>
      simp only [scanPairs, hc]
      exact ⟨ps, rfl⟩
    | error e =>
      simp only [scanPairs, hc]
      obtain ⟨tl, htl⟩ := ih (some e)
      exact ⟨tl, by rw [List.cons_append, htl]⟩

theorem mem_nestedPairs (keys models : List String) (p : String × String)
    (h : p ∈ nestedPairs keys models) : p.1 ∈ keys := by
  simp only [nestedPairs, List.mem_flatMap, List.mem_map] at h
  obtain ⟨k, hk, m, _, rfl⟩ := h
  exact hk

theorem nestedPairs_nodup (keys models : List String)
    (hk : keys.Nodup) (hm : models.Nodup) : (nestedPairs keys models).Nodup := by
  induction keys with
  | nil => simp [nestedPairs]
  | cons k ks ih =>
    rw [nestedPairs_cons]
    rw [List.nodup_cons] at hk
    refine List.Nodup.append ?_ (ih hk.2) ?_
    · exact hm.map fun a b hab => by
        simpa using congrArg Prod.snd hab
    · intro p hp₁ hp₂
      have h₁ : p.1 = k := by
        simp only [List.mem_map] at hp₁
        obtain ⟨m, _, rfl⟩ := hp₁
        rfl
      exact hk.1 (h₁ ▸ mem_nestedPairs ks models p hp₂)

theorem nestedPairs_length (keys models : List String) :
    (nestedPairs keys models).length = keys.length * models.length := by
  induction keys with
  | nil => simp [nestedPairs]
  | cons k ks ih => simp [nestedPairs_cons, ih, Nat.succ_mul, Nat.add_comm]

theorem isEmpty_false_of_ne (keys : List String) (hk : keys ≠ []) :
    keys.isEmpty = false := by
  cases keys with
  | nil => exact absurd rfl hk
  | cons k ks => rfl

/-- C1: For every non-empty credential list and the fixed model
priority list, if some (credential, model) attempt succeeds —
i.e. the nested attempt order splits as `pre ++ p :: rest` with every
pair in `pre` failing and `p` succeeding with text `t` — then
`generate_content` returns `(t, p.2)` (the response text and model
identifier of the first succeeding attempt) and its attempt trace is
exactly `pre ++ [p]`: no attempt is issued for any later
(credential, model) pair. -/
theorem generate_content_first_success (call : Call) (keys : List String)
    (pre rest : List (String × String)) (p : String × String) (t : String)
    (hk : keys ≠ [])
    (hsplit : nestedPairs keys MODEL_PRIORITY = pre ++ p :: rest)
    (hpre : ∀ q ∈ pre, (call q.1 q.2).isOk = false)
    (hp : call p.1 p.2 = .ok t) :
    generate_content call keys = (.ok (t, p.2), pre ++ [p]) := by
  unfold generate_content
  rw [isEmpty_false_of_ne keys hk]
  simp only [Bool.false_eq_true, if_false]
  rw [tryKeys_eq_scanPairs, hsplit]
  obtain ⟨h1, h2⟩ := scanPairs_first_success call pre p rest t none hpre hp
  cases hs : scanPairs call (pre ++ p :: rest) none with
  | mk fst snd =>
    rw [hs] at h1 h2
    subst h1
    simpa using h2

/-- C2: For every non-empty credential list, if every
(credential, model) attempt fails, `generate_content` raises the
terminal exhaustion error whose message embeds the last observed
attempt error (the error `e` of the last pair `p` in the nested order),
and the attempt trace is the whole nested matrix, so the total number
of attempts equals `len(credentials) * len(models)`. -/
theorem generate_content_exhausted (call : Call) (keys : List String)
    (p : String × String) (e : String)
    (hk : keys ≠ [])
    (hfail : ∀ q ∈ nestedPairs keys MODEL_PRIORITY, (call q.1 q.2).isOk = false)
    (hlast : (nestedPairs keys MODEL_PRIORITY).getLast? = some p)
    (herr : call p.1 p.2 = .error e) :
    generate_content call keys =
      (.error (.exhausted (exhaustMsg keys.length (some e))),
        nestedPairs keys MODEL_PRIORITY) ∧
    (generate_content call keys).2.length =
      keys.length * MODEL_PRIORITY.length := by
  have hmain : generate_content call keys =
      (.error (.exhausted (exhaustMsg keys.length (some e))),
        nestedPairs keys MODEL_PRIORITY) := by
    unfold generate_content
    rw [isEmpty_false_of_ne keys hk]
    simp only [Bool.false_eq_true, if_false]
    rw [tryKeys_eq_scanPairs]
    obtain ⟨h1, h2⟩ := scanPairs_all_fail call _ none hfail
    have h3 := scanPairs_last_error call _ none p e hfail hlast herr
    cases hs : scanPairs call (nestedPairs keys MODEL_PRIORITY) none with
    | mk fst snd =>
      rw [hs] at h1 h2 h3
      obtain rfl : fst = none := h1
      have h2' : snd.1 = nestedPairs keys MODEL_PRIORITY := h2
      have h3' : snd.2 = some e := h3
      dsimp only
      rw [h2', h3']
  refine ⟨hmain, ?_⟩
  rw [hmain]
  exact nestedPairs_length keys MODEL_PRIORITY

/-- C3: If the loaded credential list is empty, `generate_content`
fails immediately with the distinct "not configured" error and its
attempt trace is empty: zero generation attempts are made, whatever the
provider oracle would have answered. -/
theorem generate_content_no_keys (call : Call) :
    generate_content call [] = (.error .noKeys, []) := rfl

/-- C4: Within a single `generate_content` call the attempt trace is
exactly a prefix of the deterministic nested sequence
(credential₀, model₀), (credential₀, model₁), …, (credential₁, model₀), …
(never reordered, never skipped except by stopping early), and —
since the loaded credential list is duplicate-free — no
(credential, model) pair is attempted more than once. -/
theorem generate_content_trace_nested (call : Call) (keys : List String)
    (hnd : keys.Nodup) :
    (generate_content call keys).2 <+: nestedPairs keys MODEL_PRIORITY ∧
    (generate_content call keys).2.Nodup := by
  by_cases hk : keys = []
  · subst hk
    exact ⟨List.prefix_refl _, List.nodup_nil⟩
  · have hgen : generate_content call keys = tryKeys call keys.length keys none := by
      unfold generate_content
      rw [isEmpty_false_of_ne keys hk]
      simp
    rw [hgen, tryKeys_eq_scanPairs]
    have hpre := scanPairs_trace_of call (nestedPairs keys MODEL_PRIORITY) none
    cases hs : scanPairs call (nestedPairs keys MODEL_PRIORITY) none with
    | mk fst snd =>
      rw [hs] at hpre
      have hnd₂ : snd.1.Nodup :=
        List.Nodup.sublist hpre.sublist
          (nestedPairs_nodup keys MODEL_PRIORITY hnd (by decide))
      cases fst with
      | some r => exact ⟨hpre, hnd₂⟩
      | none => exact ⟨hpre, hnd₂⟩

/-- A concrete oracle: credential "K1" succeeds on the third model,
everything else fails. -/
def callW1 : Call := fun k m =>
  if k = "K1" then
    if m = "gemini-2.5-flash-lite" then .ok "TEXT" else .error ("boom " ++ m)
  else .error "other key"

/-- A concrete oracle where every attempt fails. -/
def callW2 : Call := fun k m => .error ("fail " ++ k ++ " " ++ m)

theorem generate_content_first_success_witness :
    generate_content callW1 ["K1", "K2"] =
      (.ok ("TEXT", "gemini-2.5-flash-lite"),
        [("K1", "gemini-2.5-flash"), ("K1", "gemini-2.0-flash"),
         ("K1", "gemini-2.5-flash-lite")]) :=
  generate_content_first_success callW1 ["K1", "K2"]
    [("K1", "gemini-2.5-flash"), ("K1", "gemini-2.0-flash")]
    [("K1", "gemini-2.0-flash-lite"), ("K2", "gemini-2.5-flash"),
     ("K2", "gemini-2.0-flash"), ("K2", "gemini-2.5-flash-lite"),
     ("K2", "gemini-2.0-flash-lite")]
    ("K1", "gemini-2.5-flash-lite") "TEXT"
    (by decide) (by decide) (by decide) (by rfl)

theorem generate_content_exhausted_witness :
    generate_content callW2 ["A"] =
      (.error (.exhausted
        (exhaustMsg 1 (some "fail A gemini-2.0-flash-lite"))),
        nestedPairs ["A"] MODEL_PRIORITY) ∧
    (generate_content callW2 ["A"]).2.length = 1 * MODEL_PRIORITY.length :=
  generate_content_exhausted callW2 ["A"]
    ("A", "gemini-2.0-flash-lite") "fail A gemini-2.0-flash-lite"
    (by decide) (by decide) (by decide) (by rfl)

theorem generate_content_trace_nested_witness :
    (generate_content callW1 ["K1", "K2"]).2 <+:
      nestedPairs ["K1", "K2"] MODEL_PRIORITY ∧
    (generate_content callW1 ["K1", "K2"]).2.Nodup :=
  generate_content_trace_nested callW1 ["K1", "K2"] (by decide)

/-- Python slice `s[-4:]` (for `n = 4`): the last `n` characters. -/
def takeRightStr (s : String) (n : Nat) : String :=
  String.mk (s.toList.drop (s.toList.length - n))

/-- The masked key preview of line 93:
`key_preview = f"...{api_key[-4:]}" if len(api_key) > 4 else "Unknown"`. -/
def key_preview (k : String) : String :=
  if k.length > 4 then "..." ++ takeRightStr k 4 else "Unknown"

/-- C6: the masked display of a credential never reveals more than a
short trailing fragment: it is either the constant "Unknown" or "..."
followed by the last four characters, and two credentials that agree on
their last four characters (both longer than four) — or are both of
length at most four — produce identical previews, so the preview
depends on no other part of the secret. -/
theorem key_preview_masks (a b : String)
    (h : (a.length ≤ 4 ∧ b.length ≤ 4) ∨
      (4 < a.length ∧ 4 < b.length ∧ takeRightStr a 4 = takeRightStr b 4)) :
    key_preview a = key_preview b ∧
    (key_preview a = "Unknown" ∨ key_preview a = "..." ++ takeRightStr a 4) := by
  constructor
  · rcases h with ⟨ha, hb⟩ | ⟨ha, hb, heq⟩
    · unfold key_preview
      rw [if_neg (by omega), if_neg (by omega)]
    · unfold key_preview
      rw [if_pos ha, if_pos hb, heq]
  · unfold key_preview
    by_cases ha : a.length > 4
    · rw [if_pos ha]
      right
      rfl
    · rw [if_neg ha]
      left
      rfl

theorem key_preview_masks_witness :
    key_preview "alphaWXYZ" = key_preview "betaWXYZ" ∧
    (key_preview "alphaWXYZ" = "Unknown" ∨
      key_preview "alphaWXYZ" = "..." ++ takeRightStr "alphaWXYZ" 4) :=
  key_preview_masks "alphaWXYZ" "betaWXYZ"
    (Or.inr ⟨by decide, by decide, by decide⟩)

/-- `GeminiAPIManager` state: the single field assigned in `__init__`
(line 40). -/
structure GeminiAPIManager where
  api_keys : List String
  deriving Repr, DecidableEq

/-- The dictionary returned by `GeminiAPIManager.get_status`
(lines 138-147). -/
structure GeminiStatus where
  total_keys : Nat
  available_models : List String
  failed_keys : Nat
  current_model : String
  current_model_index : Nat
  deriving Repr, DecidableEq

/-- `GeminiAPIManager.get_status` (lines 138-147). -/
def GeminiAPIManager.get_status (m : GeminiAPIManager) : GeminiStatus :=
  { total_keys := m.api_keys.length
    available_models := MODEL_PRIORITY
    failed_keys := 0
    current_model := "Auto-switching"
    current_model_index := 0 }

/-- `GeminiAPIManager.reset` (lines 149-151): `pass`, so the state is
returned unchanged. -/
def GeminiAPIManager.reset (m : GeminiAPIManager) : GeminiAPIManager := m

/-- `generate_content` as a state transformer on the manager: the method
reads `self.api_keys` and assigns no attribute, so the post-state is the
pre-state. -/
def GeminiAPIManager.generate_content_op (m : GeminiAPIManager) (call : Call) :
    (Except GenError (String × String) × List (String × String)) ×
      GeminiAPIManager :=
  (generate_content call m.api_keys, m)

/-- `get_status` as a state transformer on the manager. -/
def GeminiAPIManager.get_status_op (m : GeminiAPIManager) :
    GeminiStatus × GeminiAPIManager :=
  (m.get_status, m)

/-- C7: the manager's credential list and model list are never mutated:
`generate_content`, `get_status` and `reset` all leave the manager state
unchanged, `reset` is a no-op, a repeated `generate_content` call sees
the same state and produces the same result (no attempt history persists
across calls), and the advertised model list is always the fixed
`MODEL_PRIORITY`. -/
theorem manager_state_immutable (m : GeminiAPIManager) (call : Call) :
    (m.generate_content_op call).2 = m ∧
    m.get_status_op.2 = m ∧
    m.reset = m ∧
    ((m.generate_content_op call).2.generate_content_op call).1 =
      (m.generate_content_op call).1 ∧
    (m.generate_content_op call).2.get_status.available_models =
      MODEL_PRIORITY :=
  ⟨rfl, rfl, rfl, rfl, rfl⟩

/-- C9: `get_status` always reports `total_keys` equal to the length of
the loaded credential list and `available_models` equal to the fixed
model priority list; regardless of any prior generation call its legacy
fields are the constants `failed_keys = 0`,
`current_model = "Auto-switching"` and `current_model_index = 0`. -/
theorem get_status_fields (m : GeminiAPIManager) (call : Call) :
    m.get_status.total_keys = m.api_keys.length ∧
    m.get_status.available_models = MODEL_PRIORITY ∧
    m.get_status.failed_keys = 0 ∧
    m.get_status.current_model = "Auto-switching" ∧
    m.get_status.current_model_index = 0 ∧
    (m.generate_content_op call).2.get_status = m.get_status :=
  ⟨rfl, rfl, rfl, rfl, rfl, rfl⟩

/-- Python truthiness of an `os.getenv` result: `None` and the empty
string are falsy. -/
def pyTruthy : Option String → Bool
  | none => false
  | some s => !s.isEmpty

/-- One iteration of the slot loop of `_load_api_keys` (lines 48-55):
try `GEMINI_API_KEY_i`, fall back to `GOOGLE_API_KEY_i` when the first
is not truthy, and keep the value only if truthy. -/
def slotKey (env : String → Option String) (i : Nat) : Option String :=
  let key := env ("GEMINI_API_KEY_" ++ toString i)
  let key := if pyTruthy key then key else env ("GOOGLE_API_KEY_" ++ toString i)
  if pyTruthy key then key else none

/-- The keys gathered from the numbered slots `1..20` (lines 48-55). -/
def numberedKeys (env : String → Option String) : List String :=
  (List.range' 1 20).filterMap (slotKey env)

/-- Python `str.split(",")` over the character list: split on every
comma, keeping empty pieces (so `"".split(",") == [""]`). -/
def splitCommaGo (cur : List Char) : List Char → List (List Char)
  | [] => [cur.reverse]
  | c :: cs =>
    if c = ',' then cur.reverse :: splitCommaGo [] cs
    else splitCommaGo (c :: cur) cs

/-- Python `str.split(",")`. -/
def pySplitComma (s : String) : List String :=
  (splitCommaGo [] s.toList).map String.mk

/-- Python `str.strip()`: drop leading and trailing whitespace. -/
def pyStrip (s : String) : String :=
  String.mk
    (((s.toList.dropWhile Char.isWhitespace).reverse.dropWhile
        Char.isWhitespace).reverse)

/-- The keys appended from the bulk comma-separated `GEMINI_API_KEYS`
variable (lines 57-60): split on comma, strip whitespace, drop entries
that are empty after stripping. -/
def bulkKeys (env : String → Option String) : List String :=
  let bulk := (env "GEMINI_API_KEYS").getD ""
  if bulk.isEmpty then []
  else ((pySplitComma bulk).map pyStrip).filter (fun s => !s.isEmpty)

/-- The seen-set deduplication loop of `_load_api_keys` (lines 62-68). -/
def dedupGo (seen : List String) : List String → List String
  | [] => []
  | k :: ks => if k ∈ seen then dedupGo seen ks else k :: dedupGo (k :: seen) ks

/-- `GeminiAPIManager._load_api_keys` (lines 42-71), over an environment
`env` mapping variable names to their optional values. -/
def load_api_keys (env : String → Option String) : List String :=
  dedupGo [] (numberedKeys env ++ bulkKeys env)

/-- Modelled from the spec's wording of deduplication: walk the list
left to right and append each element the first time it is seen,
preserving first-occurrence order. -/
def dedupSpec (l : List String) : List String :=
  l.foldl (fun acc x => if x ∈ acc then acc else acc ++ [x]) []

theorem dedupGo_eq_foldl :
    ∀ (l seen acc : List String), (∀ x, x ∈ seen ↔ x ∈ acc) →
      acc ++ dedupGo seen l =
        l.foldl (fun a x => if x ∈ a then a else a ++ [x]) acc := by
  intro l
  induction l with
  | nil => intro seen acc _; simp [dedupGo]
  | cons k ks ih =>
    intro seen acc h
    by_cases hk : k ∈ seen
    · simp only [dedupGo, if_pos hk, List.foldl_cons]
      rw [if_pos ((h k).1 hk)]
      exact ih seen acc h
    · simp only [dedupGo, if_neg hk, List.foldl_cons]
      rw [if_neg (fun hx => hk ((h k).2 hx))]
      have h' : ∀ x, x ∈ k :: seen ↔ x ∈ acc ++ [k] := by
        intro x
        simp only [List.mem_cons, List.mem_append, List.mem_singleton, h x]
        tauto
      rw [← ih (k :: seen) (acc ++ [k]) h']
      simp

theorem dedupGo_nodup_strong :
    ∀ (l seen : List String),
      (dedupGo seen l).Nodup ∧ ∀ x ∈ dedupGo seen l, x ∉ seen := by
  intro l
  induction l with
  | nil => intro seen; exact ⟨List.nodup_nil, by simp [dedupGo]⟩
  | cons k ks ih =>
    intro seen
    by_cases hk : k ∈ seen
    · simpa only [dedupGo, if_pos hk] using ih seen
    · obtain ⟨hnd, hmem⟩ := ih (k :: seen)
      constructor
      · simp only [dedupGo, if_neg hk]
        exact List.nodup_cons.mpr
          ⟨fun hx => (hmem k hx) (List.mem_cons_self k seen), hnd⟩
      · intro x hx
        simp only [dedupGo, if_neg hk, List.mem_cons] at hx
        rcases hx with rfl | hx
        · exact hk
        · exact fun hxs => hmem x hx (List.mem_cons_of_mem k hxs)

theorem dedupGo_mem :
    ∀ (l seen : List String) (x : String),
      x ∈ dedupGo seen l ↔ x ∈ l ∧ x ∉ seen := by
  intro l
  induction l with
  | nil => intro seen x; simp [dedupGo]
  | cons k ks ih =>
    intro seen x
    by_cases hk : k ∈ seen
    · rw [show dedupGo seen (k :: ks) = dedupGo seen ks by
        simp [dedupGo, if_pos hk]]
      rw [ih]
      simp only [List.mem_cons]
      constructor
      · rintro ⟨hx, hs⟩
        exact ⟨Or.inr hx, hs⟩
      · rintro ⟨hx | hx, hs⟩
        · exact absurd (hx ▸ hk) hs
        · exact ⟨hx, hs⟩
    · simp only [dedupGo, if_neg hk, List.mem_cons, ih, List.mem_cons]
      constructor
      · rintro (rfl | ⟨hx, hs⟩)
        · exact ⟨Or.inl rfl, hk⟩
        · exact ⟨Or.inr hx, fun hxs => hs (Or.inr hxs)⟩
      · rintro ⟨rfl | hx, hs⟩
        · exact Or.inl rfl
        · by_cases hxk : x = k
          · exact Or.inl hxk
          · exact Or.inr ⟨hx, fun hxs => hxs.elim hxk hs⟩

theorem dedupGo_sublist :
    ∀ (l seen : List String), List.Sublist (dedupGo seen l) l := by
  intro l
  induction l with
  | nil => intro seen; simp [dedupGo]
  | cons k ks ih =>
    intro seen
    by_cases hk : k ∈ seen
    · simp only [dedupGo, if_pos hk]
      exact (ih seen).trans (List.sublist_cons_self k ks)
    · simp only [dedupGo, if_neg hk]
      exact (ih (k :: seen)).cons₂ k

/-- C5: the credential loader scans the numbered slots 1..20 with the
`GEMINI_API_KEY_i` / `GOOGLE_API_KEY_i` fallback, appends the bulk-list
entries (split on comma, whitespace-trimmed, empties dropped), and
returns the result deduplicated preserving first-occurrence order:
the loaded list equals the spec-side first-occurrence dedup of
`numberedKeys ++ bulkKeys`, is duplicate-free, has exactly the members
of that raw list in the same relative order (a sublist), and in
particular two identical credential strings from different slots yield
a single entry (every credential is counted at most once). -/
theorem load_api_keys_spec (env : String → Option String) :
    load_api_keys env = dedupSpec (numberedKeys env ++ bulkKeys env) ∧
    (load_api_keys env).Nodup ∧
    (∀ k, k ∈ load_api_keys env ↔ k ∈ numberedKeys env ++ bulkKeys env) ∧
    List.Sublist (load_api_keys env) (numberedKeys env ++ bulkKeys env) ∧
    (∀ k, (load_api_keys env).count k ≤ 1) := by
  have hnd : (load_api_keys env).Nodup :=
    (dedupGo_nodup_strong (numberedKeys env ++ bulkKeys env) []).1
  refine ⟨?_, hnd, ?_, ?_, ?_⟩
  · unfold load_api_keys dedupSpec
    have h := dedupGo_eq_foldl (numberedKeys env ++ bulkKeys env) [] []
      (by simp)
    simpa using h
  · intro k
    unfold load_api_keys
    rw [dedupGo_mem]
    simp
  · exact dedupGo_sublist _ []
  · exact List.nodup_iff_count_le_one.mp hnd

/-- A concrete environment: slot 1 and slot 2 (via the fallback name)
hold the same credential, slot 3 holds a falsy empty string, and the
bulk variable holds untrimmed and empty entries. -/
def envW : String → Option String := fun n =>
  if n = "GEMINI_API_KEY_1" then some "KEYA"
  else if n = "GOOGLE_API_KEY_2" then some "KEYA"
  else if n = "GEMINI_API_KEY_3" then some ""
  else if n = "GEMINI_API_KEYS" then some " KEYA , KEYB ,,"
  else none

theorem load_api_keys_spec_witness :
    load_api_keys envW = ["KEYA", "KEYB"] ∧ (load_api_keys envW).Nodup :=
  ⟨by decide, (load_api_keys_spec envW).2.1⟩

/-- Python `str.find`: index of the first character satisfying `p`
(`none` models `-1`). -/
def pyFind (p : Char → Bool) : List Char → Option Nat
  | [] => none
  | c :: cs => if p c then some 0 else (pyFind p cs).map (· + 1)

/-- Python `str.rfind`: index of the last character satisfying `p`
(`none` models `-1`). -/
def pyRFind (p : Char → Bool) : List Char → Option Nat
  | [] => none
  | c :: cs =>
    match pyRFind p cs with
    | some n => some (n + 1)
    | none => if p c then some 0 else none

/-- The JSON-extraction block of app.py (lines 336-344): find the first
`[` and the last `]`; when both exist and the `]` comes after the `[`,
slice `raw[json_start : json_end + 1]`; otherwise fall back to the
whitespace-stripped whole response. -/
def extract_json (raw : String) : String :=
  let cs := raw.toList
  match pyFind (fun c => c == '[') cs, pyRFind (fun c => c == ']') cs with
  | some i, some j =>
    if i < j then String.mk ((cs.drop i).take (j + 1 - i)) else pyStrip raw
  | _, _ => pyStrip raw

theorem pyFind_none (p : Char → Bool) :
    ∀ l, (∀ a ∈ l, p a = false) → pyFind p l = none := by
  intro l
  induction l with
  | nil => intro _; rfl
  | cons c cs ih =>
    intro h
    simp only [pyFind, h c (List.mem_cons_self c cs),
      ih (fun a ha => h a (List.mem_cons_of_mem c ha))]
    rfl

theorem pyFind_first (p : Char → Bool) :
    ∀ (l₁ : List Char) (x : Char) (l₂ : List Char),
      (∀ a ∈ l₁, p a = false) → p x = true →
      pyFind p (l₁ ++ x :: l₂) = some l₁.length := by
  intro l₁
  induction l₁ with
  | nil => intro x l₂ _ hx; simp [pyFind, hx]
  | cons c cs ih =>
    intro x l₂ h hx
    have hc := h c (List.mem_cons_self c cs)
    have hrec := ih x l₂ (fun a ha => h a (List.mem_cons_of_mem c ha)) hx
    simp [pyFind, hc, hrec]

theorem pyRFind_none (p : Char → Bool) :
    ∀ l, (∀ a ∈ l, p a = false) → pyRFind p l = none := by
  intro l
  induction l with
  | nil => intro _; rfl
  | cons c cs ih =>
    intro h
    simp [pyRFind, h c (List.mem_cons_self c cs),
      ih (fun a ha => h a (List.mem_cons_of_mem c ha))]

theorem pyRFind_last (p : Char → Bool) :
    ∀ (l₁ : List Char) (x : Char) (l₂ : List Char),
      p x = true → (∀ a ∈ l₂, p a = false) →
      pyRFind p (l₁ ++ x :: l₂) = some l₁.length := by
  intro l₁
  induction l₁ with
  | nil =>
    intro x l₂ hx h₂
    simp [pyRFind, pyRFind_none p l₂ h₂, hx]
  | cons c cs ih =>
    intro x l₂ hx h₂
    simp [pyRFind, ih x l₂ hx h₂]

theorem mk_toList (s : String) : String.mk s.toList = s := rfl

/-- C8: the response-parsing step recovers a JSON array surrounded by
extra prose — for any decomposition `pre ++ "[" ++ mid ++ "]" ++ post`
where `pre` contains no `[` and `post` contains no `]`, the extracted
string is exactly `"[" ++ mid ++ "]"` (the substring from the first `[`
to the last `]` inclusive); in every other case — no `[`, no `]`, or
both present but the last `]` not after the first `[` — the whole
response, whitespace-stripped, is passed on instead. -/
theorem extract_json_spec (pre mid post : String)
    (hpre : '[' ∉ pre.toList) (hpost : ']' ∉ post.toList) :
    extract_json (pre ++ "[" ++ mid ++ "]" ++ post) = "[" ++ mid ++ "]" ∧
    (∀ raw : String,
      (∀ i j, pyFind (fun c => c == '[') raw.toList = some i →
        pyRFind (fun c => c == ']') raw.toList = some j → ¬ i < j) →
      extract_json raw = pyStrip raw) := by
  refine ⟨?_, ?_⟩
  · have hdata : (pre ++ "[" ++ mid ++ "]" ++ post).toList =
        pre.toList ++ '[' :: (mid.toList ++ ']' :: post.toList) := by
      show (pre ++ "[" ++ mid ++ "]" ++ post).data = _
      simp [String.data_append]
    have hpre' : ∀ a ∈ pre.toList, (a == '[') = false := by
      intro a ha
      rw [beq_eq_false_iff_ne]
      rintro rfl
      exact hpre ha
    have hpost' : ∀ a ∈ post.toList, (a == ']') = false := by
      intro a ha
      rw [beq_eq_false_iff_ne]
      rintro rfl
      exact hpost ha
    have hfind : pyFind (fun c => c == '[')
        (pre ++ "[" ++ mid ++ "]" ++ post).toList = some pre.toList.length := by
      rw [hdata]
      exact pyFind_first _ pre.toList '[' _ hpre' rfl
    have hassoc : pre.toList ++ '[' :: (mid.toList ++ ']' :: post.toList) =
        (pre.toList ++ '[' :: mid.toList) ++ ']' :: post.toList := by
      simp
    have hlen : (pre.toList ++ '[' :: mid.toList).length =
        pre.toList.length + mid.toList.length + 1 := by
      simp [List.length_append]
      omega
    have hrfind : pyRFind (fun c => c == ']')
        (pre ++ "[" ++ mid ++ "]" ++ post).toList =
          some (pre.toList.length + mid.toList.length + 1) := by
      rw [hdata, hassoc]
      rw [pyRFind_last _ _ ']' _ rfl hpost', hlen]
    simp only [extract_json]
    rw [hfind, hrfind]
    dsimp only
    rw [if_pos (by omega)]
    have harith : pre.toList.length + mid.toList.length + 1 + 1 -
        pre.toList.length = mid.toList.length + 2 := by omega
    rw [harith, hdata, List.drop_left]
    have htake : ('[' :: (mid.toList ++ ']' :: post.toList)).take
        (mid.toList.length + 2) = '[' :: (mid.toList ++ [']']) := by
      rw [show mid.toList.length + 2 = (mid.toList.length + 1) + 1 by omega]
      rw [List.take_succ_cons]
      rw [show mid.toList.length + 1 = mid.toList.length + 1 from rfl]
      rw [show (mid.toList ++ ']' :: post.toList).take (mid.toList.length + 1) =
            mid.toList ++ (']' :: post.toList).take 1 from List.take_append 1]
      simp
    rw [htake]
    calc String.mk ('[' :: (mid.toList ++ [']']))
        = String.mk (("[" ++ mid ++ "]").toList) := by
          apply congrArg String.mk
          show _ = ("[" ++ mid ++ "]").data
          simp [String.data_append]
      _ = "[" ++ mid ++ "]" := mk_toList _
  · intro raw h
    simp only [extract_json]
    cases hf : pyFind (fun c => c == '[') raw.toList with
    | none => cases hr : pyRFind (fun c => c == ']') raw.toList <;> rfl
    | some i =>
      cases hr : pyRFind (fun c => c == ']') raw.toList with
      | none => rfl
      | some j =>
        dsimp only
        rw [if_neg (h i j hf hr)]

theorem extract_json_spec_witness :
    extract_json ("noise " ++ "[" ++ "1, 2" ++ "]" ++ " tail") =
      "[" ++ "1, 2" ++ "]" :=
  (extract_json_spec "noise " "1, 2" " tail" (by decide) (by decide)).1

/-- `GroqAPIManager.MODEL_PRIORITY` (groq_api_manager.py lines 25-30). -/
def GROQ_MODEL_PRIORITY : List String :=
  [ "llama-3.3-70b-versatile",
    "llama-3.1-8b-instant",
    "mixtral-8x7b-32768",
    "gemma2-9b-it" ]

/-- The errors `GroqAPIManager.generate_content` can raise:
line 69 (client not initialized) and line 108 (all models failed). -/
inductive GroqError where
  | notInitialized : GroqError
  | allFailed (msg : String) : GroqError
  deriving Repr, DecidableEq

/-- The message of the Groq terminal error (line 108):
`f"Unable to fetch response from Groq. Last error: {last_error}"`. -/
def groqExhaustMsg (lastError : Option String) : String :=
  "Unable to fetch response from Groq. Last error: " ++
    (match lastError with | some e => e | none => "None")

/-- `GroqAPIManager` state after `__init__` (lines 32-36): the loaded
key, and the client — modelled by the key it wraps — which is only
constructed when the key is truthy. -/
structure GroqAPIManager where
  api_key : Option String
  client : Option String
  deriving Repr, DecidableEq

/-- `GroqAPIManager.__init__` (lines 32-36) over the loaded
`GROQ_API_KEY` value. -/
def GroqAPIManager.init (envKey : Option String) : GroqAPIManager :=
  { api_key := envKey
    client := if pyTruthy envKey then envKey else none }

/-- The model loop of `GroqAPIManager.generate_content` (lines 71-108),
threading `last_error`; the trace records (key, model) pairs. -/
def groqTryModels (call : Call) (key : String) :
    List String → Option String →
      Except GroqError (String × String) × List (String × String)
  | [], le => (.error (.allFailed (groqExhaustMsg le)), [])
  | m :: ms, le =>
    match call key m with
    | .ok t => (.ok (t, m), [(key, m)])
    | .error e =>
      let rest := groqTryModels call key ms (some e)
      (rest.1, (key, m) :: rest.2)

/-- `GroqAPIManager.generate_content` (lines 55-108): fail when the
client was never initialized, otherwise sweep the model priority list
with the single credential. -/
def GroqAPIManager.generate_content (m : GroqAPIManager) (call : Call) :
    Except GroqError (String × String) × List (String × String) :=
  match m.client with
  | none => (.error .notInitialized, [])
  | some key => groqTryModels call key GROQ_MODEL_PRIORITY none

theorem groqTryModels_cons (call : Call) (key m : String)
    (ms : List String) (le : Option String) :
    groqTryModels call key (m :: ms) le =
      match call key m with
      | .ok t => (.ok (t, m), [(key, m)])
      | .error e =>
        ((groqTryModels call key ms (some e)).1,
          (key, m) :: (groqTryModels call key ms (some e)).2) := rfl

theorem groqTryModels_success (call : Call) (key : String) :
    ∀ (pre : List String) (mdl : String) (rest : List String) (t : String)
      (le : Option String),
      (∀ x ∈ pre, (call key x).isOk = false) → call key mdl = .ok t →
      groqTryModels call key (pre ++ mdl :: rest) le =
        (.ok (t, mdl), (pre ++ [mdl]).map fun x => (key, x)) := by
  intro pre
  induction pre with
  | nil =>
    intro mdl rest t le _ hm
    simp [groqTryModels, hm]
  | cons c cs ih =>
    intro mdl rest t le h hm
    obtain ⟨e, he⟩ :=
      exists_error_of_isOk_false _ (h c (List.mem_cons_self c cs))
    have hrec := ih mdl rest t (some e)
      (fun x hx => h x (List.mem_cons_of_mem c hx)) hm
    simp [groqTryModels, he, hrec]

theorem groqTryModels_all_fail (call : Call) (key : String) :
    ∀ (ms : List String) (le : Option String),
      (∀ x ∈ ms, (call key x).isOk = false) →
      (groqTryModels call key ms le).2 = ms.map fun x => (key, x) := by
  intro ms
  induction ms with
  | nil => intro le _; rfl
  | cons c cs ih =>
    intro le h
    obtain ⟨e, he⟩ :=
      exists_error_of_isOk_false _ (h c (List.mem_cons_self c cs))
    have hrec := ih (some e) (fun x hx => h x (List.mem_cons_of_mem c hx))
    simp [groqTryModels, he, hrec]

theorem groqTryModels_all_fail_result (call : Call) (key : String) :
    ∀ (ms : List String) (le : Option String) (mdl : String) (e : String),
      (∀ x ∈ ms, (call key x).isOk = false) →
      ms.getLast? = some mdl → call key mdl = .error e →
      (groqTryModels call key ms le).1 =
        .error (.allFailed (groqExhaustMsg (some e))) := by
  intro ms
  induction ms with
  | nil => intro le mdl e _ hlast; simp at hlast
  | cons c cs ih =>
    intro le mdl e h hlast herr
    obtain ⟨e₀, he₀⟩ :=
      exists_error_of_isOk_false _ (h c (List.mem_cons_self c cs))
    cases cs with
    | nil =>
      simp at hlast
      subst hlast
      rw [he₀] at herr
      cases herr
      simp [groqTryModels, he₀]
    | cons c₁ cs₁ =>
      have hlast' : (c₁ :: cs₁).getLast? = some mdl := by
        rw [List.getLast?_cons_cons] at hlast
        exact hlast
      have hrec := ih (some e₀) mdl e
        (fun x hx => h x (List.mem_cons_of_mem c hx)) hlast' herr
      rw [groqTryModels_cons, he₀]
      exact hrec

theorem groqTryModels_trace_key (call : Call) (key : String) :
    ∀ (ms : List String) (le : Option String) (p : String × String),
      p ∈ (groqTryModels call key ms le).2 → p.1 = key := by
  intro ms
  induction ms with
  | nil => intro le p hp; simp [groqTryModels] at hp
  | cons c cs ih =>
    intro le p hp
    cases hc : call key c with
    | ok t =>
      simp only [groqTryModels, hc, List.mem_singleton] at hp
      subst hp
      rfl
    | error e =>
      simp only [groqTryModels, hc, List.mem_cons] at hp
      rcases hp with rfl | hp
      · rfl
      · exact ih (some e) p hp

/-- C10: the manager wired into quiz generation (`GroqAPIManager`,
instantiated by `shared/quiz_utils.py`) holds at most one credential —
every attempt in a call uses the single client key.  If no `GROQ_API_KEY`
was loaded (client `none`), `generate_content` raises the configuration
error with zero attempts; otherwise it tries each of the 4 models at
most once in priority order: the first success is returned as
`(response_text, model)`, and when every model fails it raises the
terminal error embedding the last attempt's error after exactly
`GROQ_MODEL_PRIORITY.length` attempts. -/
theorem groq_manager_spec (call : Call) (m : GroqAPIManager) :
    (m.client = none → m.generate_content call = (.error .notInitialized, [])) ∧
    (∀ key, m.client = some key →
      ∀ p ∈ (m.generate_content call).2, p.1 = key) ∧
    (∀ key pre mdl rest t, m.client = some key →
      GROQ_MODEL_PRIORITY = pre ++ mdl :: rest →
      (∀ x ∈ pre, (call key x).isOk = false) →
      call key mdl = .ok t →
      m.generate_content call =
        (.ok (t, mdl), (pre ++ [mdl]).map fun x => (key, x))) ∧
    (∀ key mdl e, m.client = some key →
      (∀ x ∈ GROQ_MODEL_PRIORITY, (call key x).isOk = false) →
      GROQ_MODEL_PRIORITY.getLast? = some mdl →
      call key mdl = .error e →
      m.generate_content call =
        (.error (.allFailed (groqExhaustMsg (some e))),
          GROQ_MODEL_PRIORITY.map fun x => (key, x)) ∧
      (m.generate_content call).2.length = GROQ_MODEL_PRIORITY.length) := by
  refine ⟨?_, ?_, ?_, ?_⟩
  · intro h
    simp [GroqAPIManager.generate_content, h]
  · intro key h p hp
    rw [GroqAPIManager.generate_content, h] at hp
    exact groqTryModels_trace_key call key GROQ_MODEL_PRIORITY none p hp
  · intro key pre mdl rest t h hsplit hpre hm
    rw [GroqAPIManager.generate_content, h, hsplit]
    exact groqTryModels_success call key pre mdl rest t none hpre hm
  · intro key mdl e h hfail hlast herr
    have h1 := groqTryModels_all_fail_result call key GROQ_MODEL_PRIORITY none
      mdl e hfail hlast herr
    have h2 := groqTryModels_all_fail call key GROQ_MODEL_PRIORITY none hfail
    constructor
    · rw [GroqAPIManager.generate_content, h]
      exact Prod.ext h1 h2
    · rw [GroqAPIManager.generate_content, h, h2]
      simp

theorem groq_manager_spec_witness :
    (GroqAPIManager.init (some "GK")).generate_content callW2 =
      (.error (.allFailed (groqExhaustMsg (some "fail GK gemma2-9b-it"))),
        GROQ_MODEL_PRIORITY.map fun x => ("GK", x)) ∧
    ((GroqAPIManager.init (some "GK")).generate_content callW2).2.length =
      GROQ_MODEL_PRIORITY.length :=
  (groq_manager_spec callW2 (GroqAPIManager.init (some "GK"))).2.2.2
    "GK" "gemma2-9b-it" "fail GK gemma2-9b-it"
    (by decide) (by decide) (by decide) (by rfl)

end QuizGen
